import Mathlib

/-!
Shallow embedding of the core of the Railgun lepton wallet library
(merkle tree, note/nullifier algebra, wallet scanner, spending-solution
planner), translated from the TypeScript sources, together with theorems
settling the specification claims about them.

Conventions of the embedding:
* JavaScript bigint values are modelled as `Int`, array indices and
  lengths as `Nat`.
* Hex-string encoded field elements are modelled by their numeric value;
  the hex encoding used by the sources is injective, so nothing is lost.
* Fallible code (a JavaScript `throw`, or an access to an `undefined`
  array slot that is subsequently hashed) is modelled with
  `Except String`.
* External cryptographic primitives (Poseidon, keccak, AES-GCM, ECDH)
  live outside the translated sources and are taken as parameters of the
  definitions, so every theorem quantifies over them unless a concrete
  evaluation is needed, in which case a cheap concrete instantiation is
  supplied.
-/

namespace Lepton

/-! ## Data model shared by the planner and the wallet

Model of `Note` (src/note/note.ts) restricted to the fields the embedded
functions read.  The `viewingPublicKey : Uint8Array` field is omitted:
none of the functions embedded here reads it.  `random` is stored by the
source as a 16-byte hex string; it is modelled by its numeric value. -/
structure MNote where
  masterPublicKey : Int
  token : String
  random : Int
  value : Int
deriving DecidableEq

/-- Model of the stored `TXO` record (src/wallet, src/models/txo-types).
The source also carries `index` and an optional `dummyKey`; neither is
read by any function embedded here.  `spendtxid : string | false` is
modelled as `Option String` with `none` for `false`. -/
structure TXO where
  tree : Nat
  position : Nat
  txid : String
  spendtxid : Option String
  note : MNote
deriving DecidableEq

/-- Model of `TreeBalance` (src/wallet/types). -/
structure TreeBalance where
  balance : Int
  utxos : List TXO
deriving DecidableEq

/-! ## Spending-solution planner (src/solutions/complex-solutions.ts)

The helpers `VALID_NULLIFIER_COUNTS`, `isValidNullifierCount`
(src/solutions/nullifiers.ts) and `calculateTotalSpend`,
`sortUTXOsBySize` (src/solutions/utxos.ts) are imported by the planner
but their defining files are not part of the provided sources; they are
modelled from the spec. -/

/-- Modelled from the spec: the fixed set of input cardinalities accepted
by the circuit, `V = [1, 2, 8]` (src/solutions/nullifiers.ts is not among
the provided sources). -/
def VALID_NULLIFIER_COUNTS : List Nat := [1, 2, 8]

/-- Modelled from the spec: membership test in `VALID_NULLIFIER_COUNTS`
(src/solutions/nullifiers.ts is not among the provided sources). -/
def isValidNullifierCount (nullifierCount : Nat) : Bool :=
  VALID_NULLIFIER_COUNTS.contains nullifierCount

/-- Finds the next valid nullifier count above the current one:
`VALID_NULLIFIER_COUNTS.find((n) => n > utxoCount)`. -/
def nextNullifierTarget (utxoCount : Nat) : Option Nat :=
  VALID_NULLIFIER_COUNTS.find? (fun n => decide (utxoCount < n))

/-- Modelled from the spec: sum of the note values of a UTXO list
(src/solutions/utxos.ts is not among the provided sources). -/
def calculateTotalSpend (utxos : List TXO) : Int :=
  utxos.foldl (fun acc utxo => acc + utxo.note.value) 0

/-- One step of a stable insertion sort, keeping values descending and
placing an element after every earlier element of greater-or-equal
value. -/
def insertUTXOBySize (utxo : TXO) : List TXO → List TXO
  | [] => [utxo]
  | head :: rest =>
    if utxo.note.value ≤ head.note.value then head :: insertUTXOBySize utxo rest
    else utxo :: head :: rest

/-- Modelled from the spec: `sortUTXOsBySize` sorts descending by note
value, ties broken by stable order (src/solutions/utxos.ts is not among
the provided sources).  Realised as a stable insertion sort. -/
def sortUTXOsBySize (utxos : List TXO) : List TXO :=
  utxos.foldl (fun acc utxo => insertUTXOBySize utxo acc) []

/-- Translation of `shouldAddMoreUTXOsForSolutionBatch`
(src/solutions/complex-solutions.ts lines 88-120).  The source computes
`nextNullifierTarget(nullifierCount)` a second time on line 111; the
recomputation returns the same value as the bound `nullifierTarget`, so
the match binds it once. -/
def shouldAddMoreUTXOsForSolutionBatch (spendingUTXOs allUTXOs : List TXO)
    (totalRequired : Int) : Bool :=
  let nullifierCount := spendingUTXOs.length
  let totalSpend := calculateTotalSpend spendingUTXOs
  if totalSpend ≥ totalRequired then
    -- We have hit the target required: keep adding until the count is valid.
    !(isValidNullifierCount nullifierCount)
  else
    match nextNullifierTarget nullifierCount with
    | none =>
      -- No next nullifier target.
      !(isValidNullifierCount nullifierCount)
    | some nullifierTarget =>
      let totalNullifierCount := allUTXOs.length
      if totalNullifierCount < nullifierTarget then
        -- Not reachable: keep adding until the count is valid.
        !(isValidNullifierCount nullifierCount)
      else
        -- Total spend below required and next target reachable: continue.
        true

/-- The filter on line 127 of src/solutions/complex-solutions.ts:
UTXOs whose txid is not excluded. -/
def filteredUTXOsOf (treeBalance : TreeBalance) (excludedUTXOIDs : List String) :
    List TXO :=
  treeBalance.utxos.filter (fun utxo => !(excludedUTXOIDs.contains utxo.txid))

/-- The accumulation loop of `findNextSolutionBatch` (lines 138-143).
The loop repeatedly pushes `filteredUTXOs[utxos.length]`, so after `k`
iterations the accumulated batch is exactly `filteredUTXOs.take k`; the
loop is modelled on the count `k` with explicit fuel.  If the JavaScript
loop were to read past the end of the array it would push `undefined`
and the following `calculateTotalSpend` would fault; that access is
modelled as an error. -/
def accumulateUTXOs (filteredUTXOs : List TXO) (totalRequired : Int) :
    Nat → Nat → Except String Nat
  | 0, _ => Except.error "solution batch loop did not terminate"
  | fuel + 1, k =>
    if shouldAddMoreUTXOsForSolutionBatch (filteredUTXOs.take k) filteredUTXOs
        totalRequired then
      if k < filteredUTXOs.length then
        accumulateUTXOs filteredUTXOs totalRequired fuel (k + 1)
      else
        Except.error "undefined UTXO index"
    else
      Except.ok k

/-- Translation of `findNextSolutionBatch`
(src/solutions/complex-solutions.ts lines 122-150).  `Except.ok none`
models returning `undefined`, `Except.error` models a thrown error. -/
def findNextSolutionBatch (treeBalance : TreeBalance) (totalRequired : Int)
    (excludedUTXOIDs : List String) : Except String (Option (List TXO)) :=
  let filteredUTXOs := filteredUTXOsOf treeBalance excludedUTXOIDs
  if filteredUTXOs.length = 0 then
    -- No more solutions in this tree.
    Except.ok none
  else
    let sorted := sortUTXOsBySize filteredUTXOs
    match accumulateUTXOs sorted totalRequired (sorted.length + 9) 0 with
    | Except.error e => Except.error e
    | Except.ok k =>
      if isValidNullifierCount k then Except.ok (some (sorted.take k))
      else Except.error "Invalid nullifier count"

/-! ## Merkle tree (src/merkletree/index.ts)

The tree is per-`(chainID, purpose, tree)`; all embedded operations work
on a single tree, so the database is modelled as the rows under
`getTreeDBPrefix(tree)`, keyed by `(level, index)`.  The padded hex
encodings of the key components are injective, so nothing is lost.
The Poseidon hash (`utils.hash.poseidon`, not among the provided
sources) is a parameter `hash2`, and `MERKLE_ZERO_VALUE`
(`keccak256("Railgun") mod SNARK_PRIME`, computed via the external
keccak) is a parameter `mzv`. -/

/-- State of one merkle tree: the persisted node rows and the
`treeLengthCache` entry for this tree.  A cache entry that was never
populated is `0`, which also matches the JavaScript treatment of both
`undefined` and `0` as falsy in `getTreeLength`. -/
structure MTState (F : Type) where
  db : List ((Nat × Nat) × F)
  length : Nat
deriving DecidableEq

/-- Look up a node row; the most recent write wins. -/
def dbGet {F : Type} (db : List ((Nat × Nat) × F)) (level index : Nat) : Option F :=
  (db.find? (fun e => e.1.1 == level && e.1.2 == index)).map (fun e => e.2)

/-- Apply a batched write (`db.batch(writeBatch)`); later puts shadow
earlier rows for `dbGet`. -/
def applyWrites {F : Type} (db writes : List ((Nat × Nat) × F)) :
    List ((Nat × Nat) × F) :=
  writes.foldl (fun acc e => e :: acc) db

/-- Model of `db.countNamespace(getTreeDBPrefix(tree))`: the number of
distinct keys under the tree prefix.  The prefix carries no level
component, so rows of every level are counted. -/
def countNamespace {F : Type} (db : List ((Nat × Nat) × F)) : Nat :=
  (db.map Prod.fst).dedup.length

/-- The `zeroValues` array computed by the constructor:
`zeroValues[0] = MERKLE_ZERO_VALUE` and
`zeroValues[l] = hashLeftRight(zeroValues[l-1], zeroValues[l-1])`. -/
def zeroValues {F : Type} (hash2 : F → F → F) (mzv : F) : Nat → F
  | 0 => mzv
  | level + 1 => hash2 (zeroValues hash2 mzv level) (zeroValues hash2 mzv level)

/-- Translation of `getNode` (lines 129-139): the persisted node, or
`zeroValues[level]` when the `db.get` throws because the row is
absent. -/
def getNode {F : Type} (hash2 : F → F → F) (mzv : F) (st : MTState F)
    (level index : Nat) : F :=
  (dbGet st.db level index).getD (zeroValues hash2 mzv level)

/-- Translation of `getTreeLength` (lines 145-150):
`treeLengthCache[tree] || countNamespace(getTreeDBPrefix(tree))`.
`0` and `undefined` are both falsy, hence the `st.length = 0` test. -/
def getTreeLength {F : Type} (st : MTState F) : Nat :=
  if st.length = 0 then countNamespace st.db else st.length

/-- Translation of `getRoot` (lines 157-159): `getNode(tree, depth, 0)`. -/
def getRoot {F : Type} (hash2 : F → F → F) (mzv : F) (depth : Nat)
    (st : MTState F) : F :=
  getNode hash2 mzv st depth 0

/-- The inner pair loop of `insertLeaves` (lines 235-253), iterating
`index` from its start value while `index <= endIndex` in steps of two.
In the odd (`Right`) case the second hash operand
`writeCache[tree][level][index]` has no `getNode` fallback in the
source; when that slot is absent the JavaScript code feeds `undefined`
to Poseidon, modelled as an error.  The fuel argument only bounds the
iteration count (`endIndex + 2` always suffices since `index` grows by
two per step). -/
def pairLoop {F : Type} (hash2 : F → F → F) (mzv : F) (st : MTState F)
    (level endIndex : Nat) :
    Nat → List ((Nat × Nat) × F) → Nat → Except String (List ((Nat × Nat) × F))
  | 0, _, _ => Except.error "pair loop did not terminate"
  | fuel + 1, cache, index =>
    if index ≤ endIndex then
      if index % 2 = 0 then
        -- Left
        let left := (dbGet cache level index).getD (getNode hash2 mzv st level index)
        let right :=
          (dbGet cache level (index + 1)).getD (getNode hash2 mzv st level (index + 1))
        pairLoop hash2 mzv st level endIndex fuel
          (((level + 1, index / 2), hash2 left right) :: cache) (index + 2)
      else
        -- Right
        let left :=
          (dbGet cache level (index - 1)).getD (getNode hash2 mzv st level (index - 1))
        match dbGet cache level index with
        | none => Except.error "poseidon called with an undefined sibling"
        | some right =>
          pairLoop hash2 mzv st level endIndex fuel
            (((level + 1, index / 2), hash2 left right) :: cache) (index + 2)
    else
      Except.ok cache

/-- The outer level loop of `insertLeaves` (lines 227-261):
`while (level < depth)`, processing pairs at the current level and then
halving `nextLevelStartIndex` and `endIndex`.  The loop runs exactly
`depth` times (level `0` to `depth - 1`), so it recurses on the number
of remaining levels. -/
def levelLoop {F : Type} (hash2 : F → F → F) (mzv : F) (st : MTState F) :
    Nat → List ((Nat × Nat) × F) → Nat → Nat → Nat →
    Except String (List ((Nat × Nat) × F))
  | 0, cache, _, _, _ => Except.ok cache
  | remaining + 1, cache, level, nextLevelStartIndex, endIndex =>
    match pairLoop hash2 mzv st level endIndex (endIndex + 2) cache
        nextLevelStartIndex with
    | Except.error e => Except.error e
    | Except.ok cache2 =>
      levelLoop hash2 mzv st remaining cache2 (level + 1)
        (nextLevelStartIndex / 2) (endIndex / 2)

/-- Translation of `writeTreeCache` (lines 165-189): flush every cached
`(level, index) → node` in one batch, set `treeLengthCache[tree]` to the
length of the level-0 cache array (one past its highest populated
index, `0` when it has none), and clear the cache. -/
def writeTreeCache {F : Type} (st : MTState F)
    (cache : List ((Nat × Nat) × F)) : MTState F :=
  let leafIndices := cache.filterMap (fun e => if e.1.1 = 0 then some e.1.2 else none)
  let newTreeLength :=
    match leafIndices.max? with
    | none => 0
    | some m => m + 1
  ⟨applyWrites st.db cache, newTreeLength⟩

/-- Translation of `insertLeaves` (lines 197-265): seed the write cache
with the leaves at level 0 from `startIndex`, run the level loop, then
commit through `writeTreeCache`. -/
def insertLeaves {F : Type} (hash2 : F → F → F) (mzv : F) (depth : Nat)
    (st : MTState F) (leaves : List F) (startIndex : Nat) :
    Except String (MTState F) :=
  let endIndex := startIndex + leaves.length
  let cache0 := leaves.enum.map (fun p => ((0, startIndex + p.1), p.2))
  match levelLoop hash2 mzv st depth cache0 0 startIndex endIndex with
  | Except.error e => Except.error e
  | Except.ok cache => Except.ok (writeTreeCache st cache)

/-- A freshly constructed tree: no persisted rows, no cached length. -/
def emptyMTState (F : Type) : MTState F := ⟨[], 0⟩

/-! ## Wallet scanner (src/wallet and src/note/note.ts)

Field elements are modelled as `Int` (JavaScript bigint).  Poseidon is
the parameter `poseidonM : List Int → Int`.  AES-GCM encryption
(`encryption.aes.gcm`, not among the provided sources) is modelled from
the spec as a function of the plaintext chunks and the key; it is the
parameter `encryptGcm`, covering the `encrypt` call plus the hex
plumbing that packs `{iv, tag, data}` into the two stored strings. -/

/-- Model of an on-chain `Commitment`: either the encrypted form or the
preimage form (spec section 3; `src/merkletree` re-exports the type). -/
inductive Commitment where
  | encryptedComm : (txid : String) → (ephemeralKeys : List Int) →
      (ciphertext : List Int) → Commitment
  | preimageComm : (txid : String) → (npk : Int) → (token : String) →
      (value : Int) → (encryptedRandom : List Int) → Commitment
deriving DecidableEq

/-- The txid carried by either commitment form. -/
def Commitment.txid : Commitment → String
  | Commitment.encryptedComm t _ _ => t
  | Commitment.preimageComm t _ _ _ _ => t

/-- Model of `NoteSerialized` as produced by `Note.serialize`
(src/note/note.ts lines 128-140): `{npk, token, value, encryptedRandom}`
with hex strings modelled by their numeric values. -/
structure NoteSerialized where
  npk : Int
  token : String
  value : Int
  encryptedRandom : List Int
deriving DecidableEq

/-- The record persisted per decrypted leaf by `Wallet.scanLeaves`
(src/wallet `scanLeaves`, the `storedCommitment` object):
`{spendtxid: false, txid, nullifier, decrypted}`.  `spendtxid : string |
false` is modelled as an `Option`, and the `msgpack` encoding of the
record is byte-identical exactly when the record is equal, so the
structure itself stands for the stored bytes. -/
structure StoredCommitment where
  spendtxid : Option String
  txid : String
  nullifier : Int
  decrypted : NoteSerialized
deriving DecidableEq

/-- Translation of `Note.getNullifier(nullifyingKey, leafIndex)`
(src/note/note.ts lines 176-178): `poseidon([nullifyingKey,
BigInt(leafIndex)])`. -/
def noteGetNullifier (poseidonM : List Int → Int) (nullifyingKey : Int)
    (leafIndex : Nat) : Int :=
  poseidonM [nullifyingKey, (leafIndex : Int)]

/-- Translation of `Wallet.getNullifyingKey`:
`poseidon([viewingKeyPair.privateKey])`. -/
def getNullifyingKey (poseidonM : List Int → Int) (viewingPrivateKey : Int) : Int :=
  poseidonM [viewingPrivateKey]

/-- Translation of `Note.serialize` (src/note/note.ts lines 128-140):
`npk = poseidon([masterPublicKey, random])` (via `format`), the token
and value fields, and `encryptedRandom = aes.gcm.encrypt([random],
viewingPrivateKey)` packed into its stored strings. -/
def serializeNote (poseidonM : List Int → Int)
    (encryptGcm : List Int → Int → List Int) (note : MNote)
    (viewingPrivateKey : Int) : NoteSerialized :=
  ⟨poseidonM [note.masterPublicKey, note.random], note.token, note.value,
   encryptGcm [note.random] viewingPrivateKey⟩

/-- Translation of the write batch built by `Wallet.scanLeaves`: for the
leaf at `position`, attempt decryption (ciphertext branch:
ECDH shared key plus `Note.decrypt`; preimage branch:
`Note.deserialize`), and for each success push a put of the stored
record at the key `getWalletDBPrefix(chainID, tree, position)`.  The two
decryption branches call only external cryptography
(`encryption.getSharedKey`, AES-GCM), so their combined outcome is the
parameter `tryDecryptNote`; a `none` is the swallowed decryption
failure.  The source passes `vpk` itself as the `nullifyingKey` argument
of `Note.getNullifier`.  The padded hex key components are injective, so
the key is modelled as the triple `(chainID, tree, position)`. -/
def scanLeavesBatch (poseidonM : List Int → Int)
    (encryptGcm : List Int → Int → List Int)
    (tryDecryptNote : Commitment → Option MNote) (vpk : Int)
    (chainID tree : Nat) (leaves : List Commitment) :
    List ((Nat × Nat × Nat) × StoredCommitment) :=
  leaves.enum.filterMap (fun p =>
    (tryDecryptNote p.2).map (fun note =>
      ((chainID, tree, p.1),
       ⟨none, p.2.txid, noteGetNullifier poseidonM vpk p.1,
        serializeNote poseidonM encryptGcm note vpk⟩)))

/-- A single database put of a stored wallet record. -/
def putRecord (db : Nat × Nat × Nat → Option StoredCommitment)
    (e : (Nat × Nat × Nat) × StoredCommitment) :
    Nat × Nat × Nat → Option StoredCommitment :=
  fun k => if k = e.1 then some e.2 else db k

/-- Applying a write batch (`db.batch(writeBatch)`) to the wallet
namespace. -/
def applyBatch (db : Nat × Nat × Nat → Option StoredCommitment)
    (batch : List ((Nat × Nat × Nat) × StoredCommitment)) :
    Nat × Nat × Nat → Option StoredCommitment :=
  batch.foldl putRecord db

/-! ## Wallet balances (src/wallet `balances`) -/

/-- Translation of `formatToByteLength(token, 32, false)`: left-pad the
hex string to 64 characters. -/
def formatTokenKey (token : String) : String :=
  String.mk (List.replicate (64 - token.length) '0') ++ token

/-- The `TreeBalance` value held at the key of `txOutput` after one
iteration of the `balances` loop: the existing entry (or a fresh
`{balance: 0, utxos: []}`), with the UTXO appended and its value added
exactly when the TXO is unspent (`!txOutput.spendtxid`). -/
def balancesEntry (bal : String → Option TreeBalance) (txOutput : TXO) :
    TreeBalance :=
  let entry := (bal (formatTokenKey txOutput.note.token)).getD ⟨0, []⟩
  if txOutput.spendtxid.isNone then
    ⟨entry.balance + txOutput.note.value, entry.utxos ++ [txOutput]⟩
  else
    entry

/-- One iteration of the `TXOs.forEach` loop in `Wallet.balances`:
ensure the token has an entry, then add the TXO when unspent. -/
def balancesStep (bal : String → Option TreeBalance) (txOutput : TXO) :
    String → Option TreeBalance :=
  fun t =>
    if t = formatTokenKey txOutput.note.token then some (balancesEntry bal txOutput)
    else bal t

/-- Translation of `Wallet.balances` as a map from formatted token key
to `TreeBalance`, folding the loop over the TXO list. -/
def balances (txos : List TXO) : String → Option TreeBalance :=
  txos.foldl balancesStep (fun _ => none)

/-- The unspent TXOs of a token, in scan order (spec side). -/
def unspentOfToken (txos : List TXO) (token : String) : List TXO :=
  txos.filter (fun t => formatTokenKey t.note.token == token && t.spendtxid.isNone)

/-- The summed note values of the unspent TXOs of a token (spec side). -/
def sumUnspentOfToken (txos : List TXO) (token : String) : Int :=
  ((unspentOfToken txos token).map (fun t => t.note.value)).sum

/-! ## Concrete instantiations used by evaluation theorems and
witnesses -/

/-- A planner TXO with the fields the planner reads. -/
def mkTXO (txid : String) (value : Int) : TXO :=
  ⟨0, 0, txid, none, ⟨0, "", 0, value⟩⟩

/-- The six-UTXO tree balance of the solutions test suite:
`a=30, b=40, c=50, d=10, e=20, f=0`. -/
def tbSix : TreeBalance :=
  ⟨150, [mkTXO "a" 30, mkTXO "b" 40, mkTXO "c" 50, mkTXO "d" 10, mkTXO "e" 20,
         mkTXO "f" 0]⟩

/-- Spending list of cardinality 1 and value sum 1000. -/
def spendOne : List TXO := [mkTXO "s1" 1000]

/-- Five UTXOs containing `spendOne`. -/
def allFiveA : List TXO :=
  spendOne ++ [mkTXO "x1" 1, mkTXO "x2" 1, mkTXO "x3" 1, mkTXO "x4" 1]

/-- Spending list of cardinality 3 and value sum 1001. -/
def spendHigh : List TXO := [mkTXO "p" 334, mkTXO "q" 334, mkTXO "r" 333]

/-- Five UTXOs containing `spendHigh`. -/
def allFiveB : List TXO := spendHigh ++ [mkTXO "x1" 1, mkTXO "x2" 1]

/-- Spending list of cardinality 3 and value sum 999. -/
def spendLow : List TXO := [mkTXO "p" 333, mkTXO "q" 333, mkTXO "r" 333]

/-- Eight UTXOs containing `spendLow`. -/
def allEight : List TXO :=
  spendLow ++ [mkTXO "x1" 1, mkTXO "x2" 1, mkTXO "x3" 1, mkTXO "x4" 1, mkTXO "x5" 1]

/-- Five UTXOs containing `spendLow`. -/
def allFiveC : List TXO := spendLow ++ [mkTXO "x1" 1, mkTXO "x2" 1]

/-- Spending list of cardinality 8 and value sum 999. -/
def spendEight : List TXO :=
  [mkTXO "p1" 125, mkTXO "p2" 125, mkTXO "p3" 125, mkTXO "p4" 125,
   mkTXO "p5" 125, mkTXO "p6" 125, mkTXO "p7" 125, mkTXO "p8" 124]

/-- Ten UTXOs containing `spendEight`. -/
def allTen : List TXO := spendEight ++ [mkTXO "x1" 1, mkTXO "x2" 1]

/-- A concrete stand-in for the two-argument Poseidon used when a merkle
theorem needs an evaluation. -/
def h2W : Nat → Nat → Nat := fun a b => a + 2 * b + 1

/-- A concrete stand-in for Poseidon over `Int` lists, injective enough
to separate the nullifier computed by the code from the one required by
the spec. -/
def poseW : List Int → Int := fun l => l.foldl (fun a x => 2 * a + x + 3) 1

/-- A concrete stand-in for the AES-GCM model. -/
def encW : List Int → Int → List Int := fun l k => k :: l

/-- A concrete decrypted note. -/
def noteW : MNote := ⟨9, "ab", 4, 100⟩

/-- A concrete preimage commitment. -/
def leafW : Commitment := Commitment.preimageComm "t0" 1 "ab" 100 [2]

/-- A decryption oracle that claims `leafW`. -/
def decW : Commitment → Option MNote := fun _ => some noteW

/-- Concrete TXOs for the balances witness: two of token `aa` (one
spent), one of token `bb`. -/
def txW1 : TXO := ⟨0, 0, "t1", none, ⟨0, "aa", 0, 10⟩⟩

/-- Spent TXO of token `aa`. -/
def txW2 : TXO := ⟨0, 1, "t2", some "s", ⟨0, "aa", 0, 5⟩⟩

/-- Unspent TXO of token `bb`. -/
def txW3 : TXO := ⟨0, 2, "t3", none, ⟨0, "bb", 0, 7⟩⟩

/-! ## Helper lemmas for the planner -/

lemma isValidNullifierCount_iff (n : Nat) :
    isValidNullifierCount n = true ↔ n = 1 ∨ n = 2 ∨ n = 8 := by
  simp [isValidNullifierCount, VALID_NULLIFIER_COUNTS, List.contains]

lemma shouldAdd_false_isValid (spending all : List TXO) (req : Int)
    (h : shouldAddMoreUTXOsForSolutionBatch spending all req = false) :
    isValidNullifierCount spending.length = true := by
  simp only [shouldAddMoreUTXOsForSolutionBatch] at h
  split at h
  · simpa using h
  · split at h
    · simpa using h
    · split at h
      · simpa using h
      · simp at h

lemma shouldAdd_true_bounds (xs : List TXO) (req : Int) (k : Nat)
    (hk8 : k ≤ 8) (hkN : k ≤ xs.length) (hN1 : 1 ≤ xs.length)
    (h3 : 3 ≤ k → 8 ≤ xs.length)
    (h : shouldAddMoreUTXOsForSolutionBatch (xs.take k) xs req = true) :
    k < xs.length ∧ (3 ≤ k + 1 → 8 ≤ xs.length) ∧ k + 1 ≤ 8 := by
  have hlen : (xs.take k).length = k := by
    rw [List.length_take]; omega
  interval_cases k
  · exact ⟨by omega, by omega, by omega⟩
  · simp only [shouldAddMoreUTXOsForSolutionBatch, hlen,
      show nextNullifierTarget 1 = some 2 from rfl] at h
    simp [isValidNullifierCount, VALID_NULLIFIER_COUNTS] at h
    exact ⟨by omega, by omega, by omega⟩
  · simp only [shouldAddMoreUTXOsForSolutionBatch, hlen,
      show nextNullifierTarget 2 = some 8 from rfl] at h
    simp [isValidNullifierCount, VALID_NULLIFIER_COUNTS] at h
    exact ⟨by omega, by omega, by omega⟩
  · exact ⟨by omega, by omega, by omega⟩
  · exact ⟨by omega, by omega, by omega⟩
  · exact ⟨by omega, by omega, by omega⟩
  · exact ⟨by omega, by omega, by omega⟩
  · exact ⟨by omega, by omega, by omega⟩
  · simp only [shouldAddMoreUTXOsForSolutionBatch, hlen,
      show nextNullifierTarget 8 = none from rfl] at h
    simp [isValidNullifierCount, VALID_NULLIFIER_COUNTS] at h

lemma accumulateUTXOs_ok (xs : List TXO) (req : Int) :
    ∀ fuel k, 9 ≤ fuel + k → k ≤ xs.length → 1 ≤ xs.length →
      (3 ≤ k → 8 ≤ xs.length) → k ≤ 8 →
      ∃ m, accumulateUTXOs xs req fuel k = Except.ok m ∧
        isValidNullifierCount m = true ∧ m ≤ 8 ∧ m ≤ xs.length := by
  intro fuel
  induction fuel with
  | zero => intro k hf _ _ _ hk8; exact ((by omega : False)).elim
  | succ fuel ih =>
    intro k hf hkN hN1 h3 hk8
    by_cases h : shouldAddMoreUTXOsForSolutionBatch (xs.take k) xs req = true
    · obtain ⟨hlt, h3x, hk8x⟩ := shouldAdd_true_bounds xs req k hk8 hkN hN1 h3 h
      have hstep : accumulateUTXOs xs req (fuel + 1) k
          = if shouldAddMoreUTXOsForSolutionBatch (xs.take k) xs req then
              (if k < xs.length then accumulateUTXOs xs req fuel (k + 1)
               else Except.error "undefined UTXO index")
            else Except.ok k := rfl
      rw [hstep, if_pos h, if_pos hlt]
      exact ih (k + 1) (by omega) hlt hN1 h3x hk8x
    · have hb : shouldAddMoreUTXOsForSolutionBatch (xs.take k) xs req = false := by
        revert h
        cases shouldAddMoreUTXOsForSolutionBatch (xs.take k) xs req <;> simp
      have hv := shouldAdd_false_isValid (xs.take k) xs req hb
      rw [List.length_take, Nat.min_eq_left hkN] at hv
      have hstep : accumulateUTXOs xs req (fuel + 1) k
          = if shouldAddMoreUTXOsForSolutionBatch (xs.take k) xs req then
              (if k < xs.length then accumulateUTXOs xs req fuel (k + 1)
               else Except.error "undefined UTXO index")
            else Except.ok k := rfl
      rw [hstep, if_neg h]
      exact ⟨k, rfl, hv, hk8, hkN⟩

lemma accumulateUTXOs_le (xs : List TXO) (req : Int) :
    ∀ fuel k m, accumulateUTXOs xs req fuel k = Except.ok m → k ≤ xs.length →
      m ≤ xs.length := by
  intro fuel
  induction fuel with
  | zero => intro k m h; simp [accumulateUTXOs] at h
  | succ fuel ih =>
    intro k m h hkN
    unfold accumulateUTXOs at h
    split at h
    · split at h
      · exact ih (k + 1) m h (by omega)
      · simp at h
    · simp only [Except.ok.injEq] at h
      omega

lemma insertUTXOBySize_length (u : TXO) (l : List TXO) :
    (insertUTXOBySize u l).length = l.length + 1 := by
  induction l with
  | nil => rfl
  | cons head rest ih =>
    unfold insertUTXOBySize
    split
    · simp [ih]
    · simp

lemma sortUTXOsBySize_length (l : List TXO) :
    (sortUTXOsBySize l).length = l.length := by
  have haux : ∀ (l acc : List TXO),
      (l.foldl (fun acc utxo => insertUTXOBySize utxo acc) acc).length
        = acc.length + l.length := by
    intro l
    induction l with
    | nil => intro acc; simp
    | cons head rest ih =>
      intro acc
      simp only [List.foldl_cons]
      rw [ih, insertUTXOBySize_length]
      simp only [List.length_cons]
      omega
  simpa using haux l []

/-! ## Claim theorems for the planner -/

/-- Claim C10: for every tree balance, required amount and excluded-txid
list, `findNextSolutionBatch` returns without throwing; the accumulation
loop runs at most `min 8 N` iterations (the returned batch has that many
entries, one per iteration) and never indexes past the end of the
filtered list (an out-of-bounds access is an `Except.error` of the
model, which cannot occur since the call always returns `Except.ok`);
the result is `none` exactly when every UTXO was excluded. -/
theorem findNextSolutionBatch_total (treeBalance : TreeBalance)
    (totalRequired : Int) (excludedUTXOIDs : List String) :
    ∃ r, findNextSolutionBatch treeBalance totalRequired excludedUTXOIDs
        = Except.ok r ∧
      (r.getD []).length ≤ min 8 (filteredUTXOsOf treeBalance excludedUTXOIDs).length ∧
      (r = none ↔ filteredUTXOsOf treeBalance excludedUTXOIDs = []) := by
  unfold findNextSolutionBatch
  by_cases hlen : (filteredUTXOsOf treeBalance excludedUTXOIDs).length = 0
  · rw [if_pos hlen]
    refine ⟨none, rfl, by simp, by simp [List.length_eq_zero.mp hlen]⟩
  · rw [if_neg hlen]
    dsimp only
    have hN1 : 1 ≤ (sortUTXOsBySize (filteredUTXOsOf treeBalance excludedUTXOIDs)).length := by
      rw [sortUTXOsBySize_length]; omega
    obtain ⟨m, hacc, hval, hm8, hmN⟩ :=
      accumulateUTXOs_ok (sortUTXOsBySize (filteredUTXOsOf treeBalance excludedUTXOIDs))
        totalRequired
        ((sortUTXOsBySize (filteredUTXOsOf treeBalance excludedUTXOIDs)).length + 9) 0
        (by omega) (by omega) hN1 (by omega) (by omega)
    rw [hacc]
    simp only [hval, if_true]
    refine ⟨some ((sortUTXOsBySize (filteredUTXOsOf treeBalance excludedUTXOIDs)).take m),
      rfl, ?_, ?_⟩
    · rw [sortUTXOsBySize_length] at hmN
      simp only [Option.getD_some, List.length_take, sortUTXOsBySize_length]
      omega
    · constructor
      · intro hcontra; exact absurd hcontra (by simp)
      · intro hcontra; exact absurd (congrArg List.length hcontra) (by simpa using hlen)

/-- Claim C2: whenever `findNextSolutionBatch` returns a batch `u`
(rather than `none`), the cardinality of `u` is 1, 2 or 8. -/
theorem findNextSolutionBatch_validCount (treeBalance : TreeBalance)
    (totalRequired : Int) (excludedUTXOIDs : List String) (u : List TXO)
    (h : findNextSolutionBatch treeBalance totalRequired excludedUTXOIDs
      = Except.ok (some u)) :
    u.length = 1 ∨ u.length = 2 ∨ u.length = 8 := by
  unfold findNextSolutionBatch at h
  by_cases hlen : (filteredUTXOsOf treeBalance excludedUTXOIDs).length = 0
  · rw [if_pos hlen] at h
    simp at h
  · rw [if_neg hlen] at h
    dsimp only at h
    cases hacc : accumulateUTXOs (sortUTXOsBySize (filteredUTXOsOf treeBalance excludedUTXOIDs))
        totalRequired
        ((sortUTXOsBySize (filteredUTXOsOf treeBalance excludedUTXOIDs)).length + 9) 0 with
    | error e => rw [hacc] at h; simp at h
    | ok k =>
      rw [hacc] at h
      by_cases hv : isValidNullifierCount k = true
      · simp only [hv, if_true, Except.ok.injEq, Option.some.injEq] at h
        have hk : k ≤ (sortUTXOsBySize (filteredUTXOsOf treeBalance excludedUTXOIDs)).length :=
          accumulateUTXOs_le _ _ _ _ _ hacc (by omega)
        have hlenu : u.length = k := by
          rw [← h, List.length_take]; omega
        rw [hlenu]
        exact (isValidNullifierCount_iff k).mp hv
      · simp only [if_neg hv] at h
        simp at h

/-- Witness for C2: on the six-UTXO balance with required 180 and no
exclusions the code returns the batch `[c, b]`, whose cardinality is 2. -/
theorem findNextSolutionBatch_validCount_witness :
    [mkTXO "c" 50, mkTXO "b" 40].length = 1 ∨
    [mkTXO "c" 50, mkTXO "b" 40].length = 2 ∨
    [mkTXO "c" 50, mkTXO "b" 40].length = 8 :=
  findNextSolutionBatch_validCount tbSix 180 [] [mkTXO "c" 50, mkTXO "b" 40] (by rfl)

/-- Claim C4 (evaluation): the five `shouldAddMoreUTXOsForSolutionBatch`
scenarios of the claim, evaluated on the code.  With `required = 1000`
the code returns `false, true, true, true, false`; the fourth scenario
(`k = 3`, `N = 5`, `sum = 999`) yields `true` where the claim states
`false`: with the next target 8 unreachable and 3 not a valid count, the
source returns `!isValidNullifierCount(3) = true`. -/
theorem shouldAdd_scenarios_eval :
    shouldAddMoreUTXOsForSolutionBatch spendOne allFiveA 1000 = false ∧
    shouldAddMoreUTXOsForSolutionBatch spendHigh allFiveB 1000 = true ∧
    shouldAddMoreUTXOsForSolutionBatch spendLow allEight 1000 = true ∧
    shouldAddMoreUTXOsForSolutionBatch spendLow allFiveC 1000 = true ∧
    shouldAddMoreUTXOsForSolutionBatch spendEight allTen 1000 = false := by
  refine ⟨rfl, rfl, rfl, rfl, rfl⟩

/-- Claim C5 (evaluation): on the six-UTXO balance with every non-zero
UTXO excluded, the code returns the batch `[f]` whose sole entry has
value zero, instead of the `none` required by the claim and by the
repository test suite. -/
theorem findNextSolutionBatch_zeroValue_eval :
    findNextSolutionBatch tbSix 120 ["a", "b", "c", "d", "e"]
      = Except.ok (some [mkTXO "f" 0]) ∧
    (mkTXO "f" 0).note.value = 0 := by
  refine ⟨rfl, rfl⟩

/-! ## Helper lemmas and claim theorems for the merkle tree -/

lemma zeroValues_eq_iterate {F : Type} (hash2 : F → F → F) (mzv : F) (l : Nat) :
    zeroValues hash2 mzv l = Nat.iterate (fun x => hash2 x x) l mzv := by
  induction l with
  | zero => rfl
  | succ l ih =>
    rw [show zeroValues hash2 mzv (l + 1)
        = hash2 (zeroValues hash2 mzv l) (zeroValues hash2 mzv l) from rfl, ih]
    rw [Function.iterate_succ_apply']

/-- Claim C9: `getNode` returns `zeroValues[level]` whenever no node is
persisted at the queried path, and for a freshly constructed depth-16
tree with no inserted leaves, `getRoot` returns `zeroValues[16]`, the
16-fold self-hash `x ↦ Poseidon(x, x)` of `MERKLE_ZERO_VALUE` (the
parameter `mzv`, computed by the source as
`keccak256("Railgun") mod SNARK_PRIME`). -/
theorem getNode_absent_and_emptyTreeRoot (F : Type) (hash2 : F → F → F)
    (mzv : F) (st : MTState F) (level index : Nat) :
    (dbGet st.db level index = none →
      getNode hash2 mzv st level index = zeroValues hash2 mzv level) ∧
    getRoot hash2 mzv 16 (emptyMTState F)
      = Nat.iterate (fun x => hash2 x x) 16 mzv := by
  constructor
  · intro h
    unfold getNode
    rw [h]
    rfl
  · show (dbGet (emptyMTState F).db 16 0).getD (zeroValues hash2 mzv 16) = _
    rw [show dbGet (emptyMTState F).db 16 0 = none from rfl]
    exact zeroValues_eq_iterate hash2 mzv 16

/-- Witness for C9 at a concrete instantiation: the absent path `(2, 5)`
of the empty tree over `Nat` with hash `h2W` and zero value 3. -/
theorem getNode_absent_and_emptyTreeRoot_witness :
    getNode h2W 3 (emptyMTState Nat) 2 5 = zeroValues h2W 3 2 ∧
    getRoot h2W 3 16 (emptyMTState Nat) = Nat.iterate (fun x => h2W x x) 16 3 :=
  ⟨(getNode_absent_and_emptyTreeRoot Nat h2W 3 (emptyMTState Nat) 2 5).1 rfl,
   (getNode_absent_and_emptyTreeRoot Nat h2W 3 (emptyMTState Nat) 2 5).2⟩

/-- Claim C1 (evaluation): inserting the contiguous batches `[7]` at
index 0 and then `[8, 9]` at index 1 (the current tree length, as the
first conjunct shows) into a depth-16 tree makes the level-0 pair loop
reach `index = 3 = endIndex` in the `Right` branch, where
`writeCache[tree][0][3]` is undefined and has no `getNode` fallback: the
second insert faults instead of writing
`node(1,1) = Poseidon(leaf2, zeroValues[0])` as the claim requires. -/
theorem insertLeaves_missingFallback_eval :
    (insertLeaves h2W 3 16 (emptyMTState Nat) [7] 0).map MTState.length
      = Except.ok 1 ∧
    Except.bind (insertLeaves h2W 3 16 (emptyMTState Nat) [7] 0)
      (fun st1 => insertLeaves h2W 3 16 st1 [8, 9] 1)
      = Except.error "poseidon called with an undefined sibling" := by
  refine ⟨rfl, rfl⟩

/-- Claim C7 (evaluation): after inserting one leaf into an empty
depth-16 tree, the cached length is the correct leaf count 1, but a
fresh instance with an unpopulated length cache recomputes
`countNamespace(getTreeDBPrefix(tree))`, which counts the persisted
nodes of all 17 levels and returns 17 instead of 1. -/
theorem getTreeLength_recount_eval :
    (insertLeaves h2W 3 16 (emptyMTState Nat) [7] 0).map
        (fun st1 => (getTreeLength (MTState.mk st1.db 0), getTreeLength st1))
      = Except.ok (17, 1) := by
  rfl

/-! ## Helper lemmas and claim theorems for the wallet scanner -/

/-- Claim C3 (evaluation): the nullifier persisted by `scanLeaves` for a
successfully decrypted leaf at position 0 is `Poseidon(vpk, 0)` — the
viewing private key is passed directly to `Note.getNullifier` — and at
the concrete instantiation this differs from the
`Poseidon(Poseidon(vpk), 0)` required by the claim, where
`Poseidon(vpk)` is `getNullifyingKey`. -/
theorem scanLeaves_nullifier_eval :
    ((scanLeavesBatch poseW encW decW 5 1 0 [leafW]).map
        (fun e => e.2.nullifier))
      = [poseW [5, (0 : Int)]] ∧
    poseW [5, (0 : Int)] ≠ poseW [getNullifyingKey poseW 5, (0 : Int)] := by
  refine ⟨rfl, by decide⟩

lemma applyBatch_foldl (batch : List ((Nat × Nat × Nat) × StoredCommitment)) :
    ∀ (db : Nat × Nat × Nat → Option StoredCommitment) (k : Nat × Nat × Nat),
      applyBatch db batch k
        = batch.foldl (fun acc e => if k = e.1 then some e.2 else acc) (db k) := by
  induction batch with
  | nil => intro db k; rfl
  | cons e rest ih =>
    intro db k
    show applyBatch (putRecord db e) rest k = _
    rw [ih]
    rfl

lemma foldl_lastPut_idem (k : Nat × Nat × Nat)
    (batch : List ((Nat × Nat × Nat) × StoredCommitment)) :
    ∀ a, batch.foldl (fun acc e => if k = e.1 then some e.2 else acc)
        (batch.foldl (fun acc e => if k = e.1 then some e.2 else acc) a)
      = batch.foldl (fun acc e => if k = e.1 then some e.2 else acc) a := by
  induction batch with
  | nil => intro a; rfl
  | cons e rest ih =>
    intro a
    by_cases he : k = e.1
    · simp only [List.foldl_cons, if_pos he]
    · simp only [List.foldl_cons, if_neg he]
      exact ih a

/-- Claim C6: scanning the same leaves twice for the same chain and tree
is idempotent.  Both runs produce the same write batch (the batch is a
function of the keys, the decryption outcomes and the leaf contents
only), so they write at the same keys, and applying the batch a second
time leaves every stored record byte-identical to the first run. -/
theorem scanLeaves_idempotent (poseidonM : List Int → Int)
    (encryptGcm : List Int → Int → List Int)
    (tryDecryptNote : Commitment → Option MNote) (vpk : Int)
    (chainID tree : Nat) (leaves : List Commitment)
    (db : Nat × Nat × Nat → Option StoredCommitment) (k : Nat × Nat × Nat) :
    applyBatch
        (applyBatch db
          (scanLeavesBatch poseidonM encryptGcm tryDecryptNote vpk chainID tree leaves))
        (scanLeavesBatch poseidonM encryptGcm tryDecryptNote vpk chainID tree leaves) k
      = applyBatch db
          (scanLeavesBatch poseidonM encryptGcm tryDecryptNote vpk chainID tree leaves) k := by
  rw [applyBatch_foldl, applyBatch_foldl]
  exact foldl_lastPut_idem k
    (scanLeavesBatch poseidonM encryptGcm tryDecryptNote vpk chainID tree leaves) (db k)

/-! ## Helper lemmas and claim theorems for wallet balances -/

lemma unspentOfToken_cons (t : TXO) (rest : List TXO) (token : String) :
    unspentOfToken (t :: rest) token
      = if (formatTokenKey t.note.token == token && t.spendtxid.isNone) = true
        then t :: unspentOfToken rest token else unspentOfToken rest token := by
  simp [unspentOfToken, List.filter_cons]

lemma sumUnspentOfToken_cons (t : TXO) (rest : List TXO) (token : String) :
    sumUnspentOfToken (t :: rest) token
      = (if (formatTokenKey t.note.token == token && t.spendtxid.isNone) = true
         then t.note.value else 0) + sumUnspentOfToken rest token := by
  rw [sumUnspentOfToken, unspentOfToken_cons]
  split
  · simp [sumUnspentOfToken]
  · simp [sumUnspentOfToken]

lemma balances_char (txos : List TXO) :
    ∀ (bal : String → Option TreeBalance) (token : String) (tb : TreeBalance),
      (txos.foldl balancesStep bal) token = some tb →
      (∃ tb0, bal token = some tb0 ∧
        tb.balance = tb0.balance + sumUnspentOfToken txos token ∧
        tb.utxos = tb0.utxos ++ unspentOfToken txos token) ∨
      (bal token = none ∧
        tb.balance = sumUnspentOfToken txos token ∧
        tb.utxos = unspentOfToken txos token) := by
  induction txos with
  | nil =>
    intro bal token tb h
    left
    exact ⟨tb, h, by simp [sumUnspentOfToken, unspentOfToken], by simp [unspentOfToken]⟩
  | cons t rest ih =>
    intro bal token tb h
    have h2 : (rest.foldl balancesStep (balancesStep bal t)) token = some tb := h
    by_cases htk : token = formatTokenKey t.note.token
    · have hbeq : (formatTokenKey t.note.token == token) = true := by
        rw [htk]; simp
      have hstep : balancesStep bal t token = some (balancesEntry bal t) := by
        simp [balancesStep, htk]
      rcases ih (balancesStep bal t) token tb h2 with ⟨tb0, hb, hbal, hut⟩ | ⟨hb, _, _⟩
      · have htb0 : tb0 = balancesEntry bal t := by
          rw [hstep] at hb
          injection hb with hb3
          exact hb3.symm
        cases hbt : bal token with
        | none =>
          have hentry : balancesEntry bal t
              = if t.spendtxid.isNone then
                  (⟨0 + t.note.value, [] ++ [t]⟩ : TreeBalance)
                else (⟨0, []⟩ : TreeBalance) := by
            unfold balancesEntry
            rw [← htk, hbt]
            rfl
          right
          by_cases hsp : t.spendtxid.isNone = true
          · have hcond : (formatTokenKey t.note.token == token && t.spendtxid.isNone)
                = true := by rw [hbeq, hsp]; rfl
            have htb0x : tb0 = ⟨0 + t.note.value, [] ++ [t]⟩ := by
              rw [htb0, hentry, if_pos hsp]
            refine ⟨rfl, ?_, ?_⟩
            · rw [hbal, htb0x, sumUnspentOfToken_cons, if_pos hcond]
              show 0 + t.note.value + _ = _
              omega
            · rw [hut, htb0x, unspentOfToken_cons, if_pos hcond]
              simp
          · have hcond : ¬((formatTokenKey t.note.token == token && t.spendtxid.isNone)
                = true) := by simp [hsp]
            have htb0x : tb0 = ⟨0, []⟩ := by
              rw [htb0, hentry, if_neg hsp]
            refine ⟨rfl, ?_, ?_⟩
            · rw [hbal, htb0x, sumUnspentOfToken_cons, if_neg hcond]
            · rw [hut, htb0x, unspentOfToken_cons, if_neg hcond]
              simp
        | some e0 =>
          have hentry : balancesEntry bal t
              = if t.spendtxid.isNone then
                  (⟨e0.balance + t.note.value, e0.utxos ++ [t]⟩ : TreeBalance)
                else e0 := by
            unfold balancesEntry
            rw [← htk, hbt]
            rfl
          left
          by_cases hsp : t.spendtxid.isNone = true
          · have hcond : (formatTokenKey t.note.token == token && t.spendtxid.isNone)
                = true := by rw [hbeq, hsp]; rfl
            have htb0x : tb0 = ⟨e0.balance + t.note.value, e0.utxos ++ [t]⟩ := by
              rw [htb0, hentry, if_pos hsp]
            refine ⟨e0, rfl, ?_, ?_⟩
            · rw [hbal, htb0x, sumUnspentOfToken_cons, if_pos hcond]
              show e0.balance + t.note.value + _ = _
              omega
            · rw [hut, htb0x, unspentOfToken_cons, if_pos hcond]
              simp
          · have hcond : ¬((formatTokenKey t.note.token == token && t.spendtxid.isNone)
                = true) := by simp [hsp]
            have htb0x : tb0 = e0 := by
              rw [htb0, hentry, if_neg hsp]
            refine ⟨e0, rfl, ?_, ?_⟩
            · rw [hbal, htb0x, sumUnspentOfToken_cons, if_neg hcond]
              omega
            · rw [hut, htb0x, unspentOfToken_cons, if_neg hcond]
      · exfalso
        rw [hstep] at hb
        exact Option.noConfusion hb
    · have hbeq : (formatTokenKey t.note.token == token) = false := by
        simp only [beq_eq_false_iff_ne, ne_eq]
        intro hcontra
        exact htk hcontra.symm
      have hcond : ¬((formatTokenKey t.note.token == token && t.spendtxid.isNone)
          = true) := by simp [hbeq]
      have hstep : balancesStep bal t token = bal token := by
        simp [balancesStep, htk]
      rcases ih (balancesStep bal t) token tb h2 with ⟨tb0, hb, hbal, hut⟩ | ⟨hb, hbal, hut⟩
      · left
        refine ⟨tb0, by rw [← hstep]; exact hb, ?_, ?_⟩
        · rw [sumUnspentOfToken_cons, if_neg hcond]
          omega
        · rw [unspentOfToken_cons, if_neg hcond]
          exact hut
      · right
        refine ⟨by rw [← hstep]; exact hb, ?_, ?_⟩
        · rw [sumUnspentOfToken_cons, if_neg hcond]
          omega
        · rw [unspentOfToken_cons, if_neg hcond]
          exact hut

/-- Claim C8: every entry of the `balances` map carries exactly the sum
of the note values of the unspent TXOs of its token, and its `utxos`
list is exactly the list of those unspent TXOs in order; spent TXOs
contribute to neither. -/
theorem balances_unspent (txos : List TXO) (token : String) (tb : TreeBalance)
    (h : balances txos token = some tb) :
    tb.balance = sumUnspentOfToken txos token ∧
    tb.utxos = unspentOfToken txos token := by
  rcases balances_char txos (fun _ => none) token tb h with ⟨tb0, hb, _⟩ | ⟨_, hbal, hut⟩
  · exact Option.noConfusion hb
  · exact ⟨hbal, hut⟩

/-- Witness for C8: with one spent and one unspent TXO of token `aa`
and an unspent TXO of token `bb`, the entry of token `aa` is
`{balance := 10, utxos := [txW1]}`. -/
theorem balances_unspent_witness :
    (⟨10, [txW1]⟩ : TreeBalance).balance
        = sumUnspentOfToken [txW1, txW2, txW3] (formatTokenKey "aa") ∧
    (⟨10, [txW1]⟩ : TreeBalance).utxos
        = unspentOfToken [txW1, txW2, txW3] (formatTokenKey "aa") :=
  balances_unspent [txW1, txW2, txW3] (formatTokenKey "aa") ⟨10, [txW1]⟩ (by rfl)

end Lepton
